import Mathlib

/-!
Verification of the GPU context / synchronization engine of mediapipe
(`mediapipe/gpu/gl_context.cc`).

The development shallowly embeds the data model and the operations of the
source file:

* `parseGlVersion` embeds `GlContext::ParseGlVersion` (string parsing of the
  GL version), with `simpleAtoi` embedding the external `absl::SimpleAtoi`
  integer parser (base 10, optional sign, surrounding ASCII whitespace
  tolerated, 32-bit range check, as documented in absl's `numbers.h`).
* `glMultiSyncPointAdd` embeds `GlMultiSyncPoint::Add`.
* `glFinishSyncPointIsReady` / `fenceIsReady` embed the `IsReady` methods of
  `GlFinishSyncPoint` and `GlFenceSyncPoint`; `glFinishCalled` embeds
  `GlContext::GlFinishCalled`.
* `putJob` / `getJob` embed `GlContext::DedicatedThread::{PutJob,GetJob}`.
* `dedicatedThreadRun` / `dedicatedThreadRunWithoutWaiting` embed the
  submission paths of `DedicatedThread::{Run,RunWithoutWaiting}` as event
  traces.
* `waitForGlFinishEnqueue` / `runFinishTask` embed the non-blocking prefix of
  `GlContext::WaitForGlFinishCountPast` and the `finish_task` closure it
  enqueues.
* `glSwitchContext` embeds `GlContext::SwitchContext`.
* `glVersionAfterQueries` / `finishInitializationVersion` embed the version
  resolution phase of `GlContext::FinishInitialization`.
* `threadStep` / `CoordStep` embed the two-context mutual-wait scenario of
  `GlContext::WaitForGlFinishCountPast` (both dedicated threads blocked on
  each other's finish-based sync points) as a small-step transition system.
-/

namespace GlContextSpec

/-! ### ASCII character classes and `absl::SimpleAtoi` -/

/-- ASCII digit test (`isdigit` on the characters that occur in GL version
strings). -/
def isAsciiDigit (c : Char) : Bool := '0' ≤ c && c ≤ '9'

/-- ASCII whitespace as in `absl::ascii_isspace`. -/
def isAsciiSpace (c : Char) : Bool :=
  c = ' ' || c = '\t' || c = '\n' || c = '\x0b' || c = '\x0c' || c = '\r'

/-- Numeric value of a decimal digit character. -/
def digitVal (c : Char) : Nat := c.toNat - 48

/-- Value of a nonempty all-digit character run, most significant first. -/
def digitsValue (s : List Char) : Nat := s.foldl (fun a c => 10 * a + digitVal c) 0

/-- Parses a nonempty run of decimal digits; `none` on an empty list or any
non-digit character. -/
def parseDigits (s : List Char) : Option Nat :=
  if s = [] then none
  else if s.all isAsciiDigit then some (digitsValue s) else none

/-- Model of `absl::SimpleAtoi<GLint>`: optional surrounding ASCII whitespace,
optional sign, base-10 digits, 32-bit signed range check. -/
def simpleAtoi (s : List Char) : Option Int :=
  let t := ((s.dropWhile isAsciiSpace).reverse.dropWhile isAsciiSpace).reverse
  match t with
  | '-' :: ds =>
    match parseDigits ds with
    | some n => if (n : Int) ≤ 2147483648 then some (-(n : Int)) else none
    | none => none
  | '+' :: ds =>
    match parseDigits ds with
    | some n => if (n : Int) ≤ 2147483647 then some ((n : Int)) else none
    | none => none
  | ds =>
    match parseDigits ds with
    | some n => if (n : Int) ≤ 2147483647 then some ((n : Int)) else none
    | none => none

/-! ### `GlContext::ParseGlVersion` -/

/-- Index of the first occurrence of a character (`string_view::find`);
`none` plays the role of `npos`. -/
def findChar (c : Char) : List Char → Option Nat
  | [] => none
  | d :: ds => if d = c then some 0 else Option.map (· + 1) (findChar c ds)

/-- The backward walk `while (start > 0 && isdigit(s[start - 1])) --start;`
of `ParseGlVersion`, starting from `pos - 1`. -/
def walkBack (s : List Char) : Nat → Nat
  | 0 => 0
  | i + 1 => if isAsciiDigit (s.getD i ' ') then walkBack s i else i + 1

/-- Minor-version parsing of `ParseGlVersion`: the characters after the first
dot, cut at the first space or at the next dot, whichever comes first (to the
end of the string if neither occurs), fed to `SimpleAtoi`. -/
def parseGlMinor (s : List Char) (pos : Nat) : Option Int :=
  let rest := s.drop (pos + 1)
  let spacePos := findChar ' ' rest
  let dotPos := findChar '.' rest
  let cut : Option Nat :=
    match spacePos, dotPos with
    | none, d => d
    | some sp, none => some sp
    | some sp, some d => if d < sp then some d else some sp
  let minorStr := match cut with
    | none => rest
    | some k => rest.take k
  simpleAtoi minorStr

/-- Body of `ParseGlVersion` once the position `pos` of the first dot is
known, parametrized by how the major-version substring is chosen. -/
def parseGlVersionCore (majorOf : List Char → Nat → List Char) (s : List Char)
    (pos : Nat) : Option (Int × Int) :=
  if pos = 0 then none
  else
    match simpleAtoi (majorOf s pos) with
    | none => none
    | some major =>
      match parseGlMinor s pos with
      | none => none
      | some minor => some (major, minor)

/-- Skeleton of `ParseGlVersion`, parametrized by how the major-version
substring is chosen from the string and the position of the first dot. -/
def parseGlVersionWith (majorOf : List Char → Nat → List Char) (s : List Char) :
    Option (Int × Int) :=
  match findChar '.' s with
  | none => none
  | some pos => parseGlVersionCore majorOf s pos

/-- Major-version substring exactly as the source computes it:
`version_string.substr(start, pos - start)` with `start` the result of the
backward walk from `pos - 1`. -/
def codeMajorSub (s : List Char) (pos : Nat) : List Char :=
  (s.take pos).drop (walkBack s (pos - 1))

/-- Embedding of `GlContext::ParseGlVersion`. -/
def parseGlVersion (s : List Char) : Option (Int × Int) :=
  parseGlVersionWith codeMajorSub s

/-- Maximal run of digit characters immediately preceding position `pos`. -/
def maxDigitRunBefore (s : List Char) (pos : Nat) : List Char :=
  ((s.take pos).reverse.takeWhile isAsciiDigit).reverse

/-- Version parsing as the claim words it: the major version is parsed from
the maximal run of digits immediately preceding the first dot. -/
def parseGlVersionClaimed (s : List Char) : Option (Int × Int) :=
  parseGlVersionWith maxDigitRunBefore s

/-- Major-version substring of the amended claim: the character immediately
preceding the first dot, prefixed with the maximal run of digits before that
character. -/
def amendedMajorSub (s : List Char) (pos : Nat) : List Char :=
  maxDigitRunBefore s (pos - 1) ++ (s.take pos).drop (pos - 1)

/-- Version parsing as the amended claim words it. -/
def parseGlVersionAmended (s : List Char) : Option (Int × Int) :=
  parseGlVersionWith amendedMajorSub s

/-! ### `GlMultiSyncPoint::Add` -/

/-- A sync point held by a multi-context aggregate: the identity of its owning
context together with an identifier distinguishing tokens. -/
structure SyncTok where
  ctx : Nat
  tokenId : Nat
deriving DecidableEq

/-- Embedding of `GlMultiSyncPoint::Add`: replace the first held sync point
with the same owning context in place, otherwise append at the end. -/
def glMultiSyncPointAdd : List SyncTok → SyncTok → List SyncTok
  | [], t => [t]
  | s :: rest, t =>
    if s.ctx = t.ctx then t :: rest else s :: glMultiSyncPointAdd rest t

/-- Folding a whole sequence of `Add` calls over an aggregate. -/
def glMultiSyncPointAddAll (l : List SyncTok) (ts : List SyncTok) : List SyncTok :=
  ts.foldl glMultiSyncPointAdd l

/-! ### Sync point readiness -/

/-- Embedding of `GlFinishSyncPoint::IsReady`:
`gl_context_->gl_finish_count() > gl_finish_count_`. -/
def glFinishSyncPointIsReady (captured ctxCount : Int) : Bool := captured < ctxCount

/-- Embedding of `GlContext::GlFinishCalled`: the achieved finish count is
incremented by one. -/
def glFinishCalled (count : Int) : Int := count + 1

/-- Achieved finish count after `k` further `GlFinishCalled` invocations. -/
def applyFinishCalls (count : Int) : Nat → Int
  | 0 => count
  | k + 1 => applyFinishCalls (glFinishCalled count) k

/-- State of a `GlFenceSyncPoint`: `sync_` is `none` once the fence object has
been deleted after being observed signaled. -/
structure GlFenceState where
  sync : Option Nat
deriving DecidableEq

/-- Embedding of `GlFenceSyncPoint::IsReady`: with no fence object the token
is ready; otherwise `glClientWaitSync` with zero timeout is queried, and on a
signaled result the fence is deleted and `sync_` cleared. `gpuSignaled` is the
GPU-side completion status reported by the driver. -/
def fenceIsReady (st : GlFenceState) (gpuSignaled : Bool) : Bool × GlFenceState :=
  match st.sync with
  | none => (true, st)
  | some _ => if gpuSignaled then (true, { sync := none }) else (false, st)

/-- Embedding of `GlFenceSyncPoint::Wait`: blocks in `glClientWaitSync` and
clears `sync_` when the fence is observed signaled. -/
def fenceWait (st : GlFenceState) (gpuSignaled : Bool) : GlFenceState :=
  match st.sync with
  | none => st
  | some _ => if gpuSignaled then { sync := none } else st

/-! ### `GlContext::DedicatedThread` job queue -/

/-- The job queue of a dedicated thread together with the order in which the
worker loop has removed (and run) jobs. -/
structure DTQueue where
  jobs : List Nat
  executed : List Nat
deriving DecidableEq

/-- Embedding of `DedicatedThread::PutJob`: `jobs_.push_back`. -/
def putJob (q : DTQueue) (j : Nat) : DTQueue := { q with jobs := q.jobs ++ [j] }

/-- Embedding of `DedicatedThread::GetJob` as used by the worker loop: the
front job is removed and executed; on an empty queue the worker blocks (no
state change). -/
def getJob (q : DTQueue) : DTQueue :=
  match q.jobs with
  | [] => q
  | j :: rest => { jobs := rest, executed := q.executed ++ [j] }

/-- An interleaving of submissions (from any threads) and worker removals. -/
inductive QueueOp where
  | put (jobId : Nat)
  | take
deriving DecidableEq

/-- Runs a sequence of queue operations. -/
def applyOps (q : DTQueue) : List QueueOp → DTQueue
  | [] => q
  | QueueOp.put j :: ops => applyOps (putJob q j) ops
  | QueueOp.take :: ops => applyOps (getJob q) ops

/-- Submission order of a sequence of queue operations. -/
def submissions : List QueueOp → List Nat
  | [] => []
  | QueueOp.put j :: ops => j :: submissions ops
  | QueueOp.take :: ops => submissions ops

/-! ### `DedicatedThread::Run` and `RunWithoutWaiting` as event traces -/

/-- A job: an identifier and the `::mediapipe::Status` its closure returns
(encoded as a numeric code). -/
structure GlJob where
  id : Nat
  result : Nat
deriving DecidableEq

/-- Observable events of a submission call: the job being enqueued, a job
being executed by the worker, and the call returning to its caller. -/
inductive RunEv where
  | enqueued (jobId : Nat)
  | executed (jobId : Nat)
  | returned
deriving DecidableEq

/-- Embedding of `DedicatedThread::Run`: on the worker thread itself the job
runs inline and the call returns its status, with the queue untouched; from
any other thread the job is enqueued behind the pending jobs, the worker
drains the queue in FIFO order, and the caller blocks on `gl_job_done_cv_`
until its job has run, then returns the job's status. The result is the event
trace of the call, the returned status, and the queue left behind. -/
def dedicatedThreadRun (pending : List GlJob) (j : GlJob) (isCurrentThread : Bool) :
    List RunEv × Nat × List GlJob :=
  if isCurrentThread then
    ([RunEv.executed j.id, RunEv.returned], j.result, pending)
  else
    (RunEv.enqueued j.id ::
       ((pending ++ [j]).map (fun g => RunEv.executed g.id) ++ [RunEv.returned]),
     j.result, [])

/-- Embedding of `DedicatedThread::RunWithoutWaiting`: enqueue only; the call
returns immediately and the job runs later. -/
def dedicatedThreadRunWithoutWaiting (pending : List GlJob) (j : GlJob) :
    List RunEv × List GlJob :=
  ([RunEv.enqueued j.id, RunEv.returned], pending ++ [j])

/-- Decides whether the job `jobId` is executed strictly before the first
`returned` event of a trace. -/
def executesBeforeReturning (jobId : Nat) : List RunEv → Bool
  | [] => false
  | RunEv.returned :: _ => false
  | RunEv.executed i :: rest => i = jobId || executesBeforeReturning jobId rest
  | RunEv.enqueued _ :: rest => executesBeforeReturning jobId rest

/-- The fence-insertion job of the `GlFenceSyncPoint` constructor
(`glFenceSync` followed by `glFlush`). -/
def fenceInsertJob : GlJob := { id := 0, result := 0 }

/-- Embedding of the `GlFenceSyncPoint` constructor: it submits the
fence-insertion job through the blocking `GlContext::Run`
(`gl_context_->Run([this] { sync_ = glFenceSync(...); glFlush(); })`), which
forwards to `DedicatedThread::Run` on a context with a dedicated thread. The
spec's §4.1 contract for `Run` ("submit and block until the job completes") is
used for the header-only forwarding overload. -/
def glFenceSyncPointConstruct (pending : List GlJob) (onDedicatedThread : Bool) :
    List RunEv × List GlJob :=
  let r := dedicatedThreadRun pending fenceInsertJob onDedicatedThread
  (r.1, r.2.2)

/-- Behavior the claim describes for the fence sync point constructor: the
fence-insertion job is enqueued asynchronously and the constructor returns
without blocking on its execution (this is what `RunWithoutWaiting` does). -/
def glFenceSyncPointConstructClaimed (pending : List GlJob) :
    List RunEv × List GlJob :=
  dedicatedThreadRunWithoutWaiting pending fenceInsertJob

/-! ### `WaitForGlFinishCountPast` enqueue behavior and `finish_task` -/

/-- Finish-coordination state of one context: achieved count
(`gl_finish_count_`), requested target (`gl_finish_count_target_`), the
captured counts of enqueued `finish_task` jobs, and the number of physical
`glFinish` calls performed. -/
structure FinishCtxState where
  count : Int
  target : Int
  queue : List Int
  flushes : Nat
deriving DecidableEq

/-- Embedding of the `finish_task` closure of `WaitForGlFinishCountPast`:
`if (gl_finish_count_ == count_to_pass) { glFinish(); GlFinishCalled(); }`. -/
def runFinishTask (s : FinishCtxState) (captured : Int) : FinishCtxState :=
  if s.count = captured then
    { s with count := s.count + 1, flushes := s.flushes + 1 }
  else s

/-- The worker running a list of `finish_task` jobs in order. -/
def runFinishTasks (s : FinishCtxState) : List Int → FinishCtxState
  | [] => s
  | c :: cs => runFinishTasks (runFinishTask s c) cs

/-- Embedding of the non-blocking prefix of
`GlContext::WaitForGlFinishCountPast` for a caller that is not on this
context's thread: return immediately if the achieved count already exceeds
`count_to_pass`; otherwise raise the requested target with
`assign_larger_value` and enqueue a `finish_task` capturing `count_to_pass`
via `RunWithoutWaiting`. -/
def waitForGlFinishEnqueue (s : FinishCtxState) (countToPass : Int) : FinishCtxState :=
  if countToPass < s.count then s
  else { s with target := max s.target (countToPass + 1),
                queue := s.queue ++ [countToPass] }

/-- Several waiters issuing `WaitForGlFinishCountPast` with the same
`count_to_pass` before the context's worker gets to run any of the enqueued
jobs. -/
def enqueueWaiters (s : FinishCtxState) (countToPass : Int) : Nat → FinishCtxState
  | 0 => s
  | n + 1 => enqueueWaiters (waitForGlFinishEnqueue s countToPass) countToPass n

/-- The context's worker draining all enqueued `finish_task` jobs. -/
def drainQueue (s : FinishCtxState) : FinishCtxState :=
  runFinishTasks { s with queue := [] } s.queue

/-! ### `GlContext::SwitchContext` -/

/-- Platform-level actions of `SwitchContext`, in the order they are
performed. -/
inductive SwitchAct where
  | clearBinding
  | unlockOld (c : Nat)
  | resetCurrent
  | lockNew (c : Nat)
  | bindNew (c : Nat)
  | bindNewFailed (c : Nat)
  | unlockNew (c : Nat)
  | bindNone
deriving DecidableEq

/-- Per-thread context-affinity state: the thread-local `CurrentContext()`
record and the set of context use-mutexes this thread holds. -/
structure ThreadCtxState where
  current : Option Nat
  locked : List Nat
deriving DecidableEq

/-- Embedding of `GlContext::SwitchContext`. `target` is the context object of
the new binding (`none` for the empty binding of `ExitContext`); `unbindOk`
is the success of `SetCurrentContextBinding({})` and `bindOk` the success of
`SetCurrentContextBinding(new_context)`. Returns whether the call succeeded,
the final per-thread state, and the trace of platform actions. -/
def glSwitchContext (st : ThreadCtxState) (target : Option Nat)
    (unbindOk bindOk : Bool) : Bool × ThreadCtxState × List SwitchAct :=
  if target.isSome ∧ st.current = target then (true, st, [])
  else
    let step1 : Bool × ThreadCtxState × List SwitchAct :=
      match st.current with
      | some o =>
        if unbindOk then
          (true, { current := none, locked := st.locked.erase o },
           [SwitchAct.clearBinding, SwitchAct.unlockOld o, SwitchAct.resetCurrent])
        else (false, st, [])
      | none => (true, st, [])
    if step1.1 = false then step1
    else
      let st1 := step1.2.1
      let acts1 := step1.2.2
      match target with
      | some c =>
        if bindOk then
          (true, { current := some c, locked := st1.locked ++ [c] },
           acts1 ++ [SwitchAct.lockNew c, SwitchAct.bindNew c])
        else
          (false, { current := st1.current, locked := st1.locked },
           acts1 ++ [SwitchAct.lockNew c, SwitchAct.bindNewFailed c,
                     SwitchAct.unlockNew c])
      | none => (bindOk, st1, acts1 ++ [SwitchAct.bindNone])

/-! ### Version resolution in `GlContext::FinishInitialization` -/

/-- Version numbers after the query phase of `FinishInitialization`: the
numeric `GL_MAJOR_VERSION`/`GL_MINOR_VERSION` query when supported, otherwise
the parsed `GL_VERSION` string, otherwise the warned-about fallback `2.0`. -/
def glVersionAfterQueries (queryOk : Bool) (queriedMajor queriedMinor : Int)
    (versionString : List Char) : Int × Int :=
  if queryOk then (queriedMajor, queriedMinor)
  else
    match parseGlVersion versionString with
    | some mm => mm
    | none => (2, 0)

/-- The context-creation override of `FinishInitialization`: a positive major
version recorded at context creation that disagrees with the queried one wins,
with minor version reset to 0. -/
def glVersionFinal (fromCreation : Int) (base : Int × Int) : Int × Int :=
  if 0 < fromCreation ∧ base.1 ≠ fromCreation then (fromCreation, 0) else base

/-- Embedding of the version phase of `GlContext::FinishInitialization`
together with the extension queries that follow it: the only error exits are
those of `GetGlExtensions` (taken when the resolved major version is at least
3) and `GetGlExtensionsCompat`. -/
def finishInitializationVersion (queryOk : Bool) (queriedMajor queriedMinor : Int)
    (versionString : List Char) (fromCreation : Int)
    (extensionsOk extensionsCompatOk : Bool) : Except Unit (Int × Int) :=
  let v := glVersionFinal fromCreation
    (glVersionAfterQueries queryOk queriedMajor queriedMinor versionString)
  if 3 ≤ v.1 ∧ extensionsOk then Except.ok v
  else if extensionsCompatOk then Except.ok v
  else Except.error ()

/-! ### Two-context mutual wait in `WaitForGlFinishCountPast`

The scenario of the deadlock-freedom property: contexts A and B, each with a
dedicated thread; A's thread executes `B.WaitForGlFinishCountPast(passB)` (the
`Wait` of a finish-based sync point of B) while B's thread simultaneously
executes `A.WaitForGlFinishCountPast(passA)`. Each thread's current context is
its own, so the `IsCurrent()` inline branch is never taken and `GetCurrent()`
is the thread's own context. Program locations follow the source: the
lock-free fast check (line 673), the target raise and signals under the waited
context's mutex (lines 677-684), recording `context_waiting_on_` under the
current context's mutex (lines 706-714), the `RunWithoutWaiting` enqueue of
`finish_task` (line 718), the condition-variable loop with the cooperative
flush (lines 719-746), clearing `context_waiting_on_` (lines 748-752), and
finally the worker loop of the thread's own context picking up queued jobs
once its current job (the one that called `Wait`) has returned. A sleeping
thread holds the waited context's mutex inside `CondVar::Wait`, so the
check-then-sleep of the loop is atomic with respect to the signals sent under
that mutex (`GlFinishCalled`); signals are modeled as waking the sleeping
thread back to the loop check. -/

/-- Program counter of one dedicated thread in the mutual-wait scenario.
`jobDone` means its `Wait` call has returned and the thread is back in its
worker loop. -/
inductive WaiterPc where
  | fastCheck
  | raiseTarget
  | setWaiting
  | enqueueTask
  | loopCheck
  | coopFlush
  | sleepingCv
  | clearWaiting
  | jobDone
deriving DecidableEq

/-- One context together with its dedicated thread. `pass` is the
`count_to_pass` that the *other* context's thread uses against this context's
counter (immutable), `count` is `gl_finish_count_`, `target` is
`gl_finish_count_target_`, `waiting` says whether this context's
`context_waiting_on_` back-reference is set, `queue` holds the captured counts
of `finish_task` jobs enqueued on this context, and `pc` is this context's
dedicated thread's location inside its `Wait` call. -/
structure CtxThread where
  pass : Nat
  count : Nat
  target : Nat
  waiting : Bool
  queue : List Nat
  pc : WaiterPc
deriving DecidableEq

/-- Waking a thread sleeping on a condition variable sends it back to the
loop's recheck (the loop never proceeds without rechecking). -/
def wakeIfSleeping (c : CtxThread) : CtxThread :=
  if c.pc = WaiterPc.sleepingCv then { c with pc := WaiterPc.loopCheck } else c

/-- One atomic action of the thread of context `self`, which is waiting on
context `other` (so it runs `other.WaitForGlFinishCountPast(other.pass)` and
its own context is `self`). Returns the updated pair `(self, other)`. -/
def threadStep (self other : CtxThread) : CtxThread × CtxThread :=
  match self.pc with
  | WaiterPc.fastCheck =>
    if other.pass < other.count then ({ self with pc := WaiterPc.jobDone }, other)
    else ({ self with pc := WaiterPc.raiseTarget }, other)
  | WaiterPc.raiseTarget =>
    let o1 := { other with target := max other.target (other.pass + 1) }
    let o2 := if o1.waiting then wakeIfSleeping o1 else o1
    ({ self with pc := WaiterPc.setWaiting }, o2)
  | WaiterPc.setWaiting =>
    ({ self with waiting := true, pc := WaiterPc.enqueueTask }, other)
  | WaiterPc.enqueueTask =>
    ({ self with pc := WaiterPc.loopCheck },
     { other with queue := other.queue ++ [other.pass] })
  | WaiterPc.loopCheck =>
    if other.pass < other.count then ({ self with pc := WaiterPc.clearWaiting }, other)
    else if self.count < self.target then ({ self with pc := WaiterPc.coopFlush }, other)
    else ({ self with pc := WaiterPc.sleepingCv }, other)
  | WaiterPc.coopFlush =>
    ({ self with count := self.count + 1, pc := WaiterPc.loopCheck },
     wakeIfSleeping other)
  | WaiterPc.sleepingCv => (self, other)
  | WaiterPc.clearWaiting =>
    ({ self with waiting := false, pc := WaiterPc.jobDone }, other)
  | WaiterPc.jobDone =>
    match self.queue with
    | [] => (self, other)
    | c :: rest =>
      if self.count = c then
        ({ self with queue := rest, count := self.count + 1 }, wakeIfSleeping other)
      else ({ self with queue := rest }, other)

/-- Whether the thread of context `self` has an enabled action: a sleeping
thread needs a signal, and an idle worker blocks on an empty queue. -/
def threadEnabled (self : CtxThread) : Bool :=
  match self.pc with
  | WaiterPc.sleepingCv => false
  | WaiterPc.jobDone => !self.queue.isEmpty
  | _ => true

/-- The two-context system. -/
structure CoordSys where
  a : CtxThread
  b : CtxThread
deriving DecidableEq

/-- Scheduling the thread of context A for one action. -/
def stepAFn (s : CoordSys) : CoordSys :=
  { a := (threadStep s.a s.b).1, b := (threadStep s.a s.b).2 }

/-- Scheduling the thread of context B for one action. -/
def stepBFn (s : CoordSys) : CoordSys :=
  { a := (threadStep s.b s.a).2, b := (threadStep s.b s.a).1 }

/-- The interleaving step relation: either thread, when enabled, may act. -/
def CoordStep (s s' : CoordSys) : Prop :=
  (threadEnabled s.a = true ∧ s' = stepAFn s) ∨
  (threadEnabled s.b = true ∧ s' = stepBFn s)

/-- No thread has an enabled action. -/
def noStepEnabled (s : CoordSys) : Bool :=
  !threadEnabled s.a && !threadEnabled s.b

/-- Both `Wait` calls have returned. -/
def bothReturned (s : CoordSys) : Bool :=
  s.a.pc = WaiterPc.jobDone && s.b.pc = WaiterPc.jobDone

/-- Initial state of the scenario: both threads are at the entry of their
`Wait` calls, no `context_waiting_on_` back-reference is set and no
`finish_task` is queued. -/
def initSys (pa ca ta pb cb tb : Nat) : CoordSys :=
  { a := { pass := pa, count := ca, target := ta, waiting := false,
           queue := [], pc := WaiterPc.fastCheck },
    b := { pass := pb, count := cb, target := tb, waiting := false,
           queue := [], pc := WaiterPc.fastCheck } }

/-- A concrete deterministic scheduler: thread A acts when enabled, otherwise
thread B; a fully blocked system stutters. -/
def schedStep (s : CoordSys) : CoordSys :=
  if threadEnabled s.a then stepAFn s
  else if threadEnabled s.b then stepBFn s
  else s

/-- Runs the deterministic scheduler. -/
def schedRun (s0 : CoordSys) : Nat → CoordSys
  | 0 => s0
  | n + 1 => schedStep (schedRun s0 n)

/-- Inductive invariant of the mutual-wait system, stated for one side:
`self` is a context/thread pair whose thread waits on context `other`, and
`t0`/`c0` are the initial values of `self`'s target and count. The clauses:
the captured pass never exceeds the achieved count (counts are monotonic and
the pass was captured from the same counter); a sleeping thread saw its wait
unfulfilled, no cooperative work, and its back-reference set; while the
thread is in its wait loop with the wait unfulfilled, its `finish_task` is
still queued on the waited context; a queue holds at most the single
`finish_task` with that context's pass; before the enqueue point the waited
context's queue is empty; the back-reference is set throughout the loop; the
waited context's target has been raised past the pass once the raise step is
done; targets and counts stay below their static bounds; and at the
cooperative-flush location the flush guard still holds. -/
structure InvSide (t0 c0 : Nat) (self other : CtxThread) : Prop where
  passLe : self.pass ≤ self.count
  sleepFacts : self.pc = WaiterPc.sleepingCv →
    other.count ≤ other.pass ∧ self.target ≤ self.count ∧ self.waiting = true
  taskPending : (self.pc = WaiterPc.loopCheck ∨ self.pc = WaiterPc.coopFlush ∨
      self.pc = WaiterPc.sleepingCv) → other.count ≤ other.pass →
    other.pass ∈ other.queue
  queueShape : self.queue = [] ∨ self.queue = [self.pass]
  otherQueueEmpty : (self.pc = WaiterPc.fastCheck ∨ self.pc = WaiterPc.raiseTarget ∨
      self.pc = WaiterPc.setWaiting ∨ self.pc = WaiterPc.enqueueTask) →
    other.queue = []
  waitingSet : (self.pc = WaiterPc.enqueueTask ∨ self.pc = WaiterPc.loopCheck ∨
      self.pc = WaiterPc.coopFlush ∨ self.pc = WaiterPc.sleepingCv ∨
      self.pc = WaiterPc.clearWaiting) → self.waiting = true
  targetRaised : (self.pc = WaiterPc.setWaiting ∨ self.pc = WaiterPc.enqueueTask ∨
      self.pc = WaiterPc.loopCheck ∨ self.pc = WaiterPc.coopFlush ∨
      self.pc = WaiterPc.sleepingCv ∨ self.pc = WaiterPc.clearWaiting) →
    other.pass + 1 ≤ other.target
  targetBound : self.target ≤ max t0 (self.pass + 1)
  coopGuard : self.pc = WaiterPc.coopFlush → self.count < self.target
  countBound : self.count ≤ max c0 (max t0 (self.pass + 1))

/-- Invariant of the whole two-context system; `ta`/`ca` and `tb`/`cb` are the
initial targets and counts of the two contexts. -/
def sysInv (ta ca tb cb : Nat) (s : CoordSys) : Prop :=
  InvSide ta ca s.a s.b ∧ InvSide tb cb s.b s.a

/-- Weight of a program location in the termination measure. -/
def pcWeight : WaiterPc → Nat
  | WaiterPc.fastCheck => 16
  | WaiterPc.raiseTarget => 15
  | WaiterPc.setWaiting => 12
  | WaiterPc.enqueueTask => 11
  | WaiterPc.loopCheck => 6
  | WaiterPc.coopFlush => 5
  | WaiterPc.sleepingCv => 4
  | WaiterPc.clearWaiting => 2
  | WaiterPc.jobDone => 0

/-- Termination measure contribution of one context/thread pair. -/
def ctxMeasure (t0 c0 : Nat) (c : CtxThread) : Nat :=
  pcWeight c.pc + 4 * (max c0 (max t0 (c.pass + 1)) - c.count) + 4 * c.queue.length

/-- Termination measure of the whole system: every enabled action strictly
decreases it. -/
def sysMeasure (ta ca tb cb : Nat) (s : CoordSys) : Nat :=
  ctxMeasure ta ca s.a + ctxMeasure tb cb s.b

/-! ## Theorems -/

/-! ### `ParseGlVersion` (claim C10) -/

theorem findChar_lt_length {c : Char} : ∀ {s : List Char} {pos : Nat},
    findChar c s = some pos → pos < s.length := by
  intro s
  induction s with
  | nil => intro pos h; simp [findChar] at h
  | cons d ds ih =>
    intro pos h
    simp only [findChar] at h
    split at h
    · cases h; simp
    · match hf : findChar c ds with
      | none => rw [hf] at h; simp at h
      | some q =>
        rw [hf] at h
        simp only [Option.map_some'] at h
        cases h
        have := ih hf
        simp [List.length_cons]
        omega

theorem walkBack_le (s : List Char) : ∀ i, walkBack s i ≤ i := by
  intro i
  induction i with
  | zero => simp [walkBack]
  | succ j ih =>
    simp only [walkBack]
    split
    · omega
    · omega

theorem take_succ_getD {s : List Char} {j : Nat} (h : j < s.length) :
    s.take (j + 1) = s.take j ++ [s.getD j ' '] := by
  rw [List.take_succ, List.getElem?_eq_getElem h]
  simp [List.getD_eq_getElem?_getD, List.getElem?_eq_getElem h]

theorem maxDigitRunBefore_succ_digit {s : List Char} {j : Nat} (h : j < s.length)
    (hd : isAsciiDigit (s.getD j ' ') = true) :
    maxDigitRunBefore s (j + 1) = maxDigitRunBefore s j ++ [s.getD j ' '] := by
  unfold maxDigitRunBefore
  rw [take_succ_getD h]
  have hd2 := hd
  rw [List.getD_eq_getElem?_getD] at hd2
  simp [List.takeWhile_cons, hd2]

theorem maxDigitRunBefore_succ_nondigit {s : List Char} {j : Nat} (h : j < s.length)
    (hd : isAsciiDigit (s.getD j ' ') = false) :
    maxDigitRunBefore s (j + 1) = [] := by
  unfold maxDigitRunBefore
  rw [take_succ_getD h]
  have hd2 := hd
  rw [List.getD_eq_getElem?_getD] at hd2
  simp [List.takeWhile_cons, hd2]

theorem take_drop_walkBack (s : List Char) : ∀ j, j < s.length →
    (s.take (j + 1)).drop (walkBack s j) =
      maxDigitRunBefore s j ++ (s.take (j + 1)).drop j := by
  intro j
  induction j with
  | zero =>
    intro _
    simp [walkBack, maxDigitRunBefore]
  | succ j ih =>
    intro h
    have hj : j < s.length := by omega
    have hlt : (s.take (j + 1)).length = j + 1 := by
      simp [List.length_take]; omega
    simp only [walkBack]
    by_cases hd : isAsciiDigit (s.getD j ' ') = true
    · rw [if_pos hd]
      have hst := walkBack_le s j
      have h2 : s.take (j + 1 + 1) = s.take (j + 1) ++ [s.getD (j + 1) ' '] :=
        take_succ_getD h
      rw [h2, List.drop_append_eq_append_drop, List.drop_append_eq_append_drop]
      rw [ih hj]
      rw [maxDigitRunBefore_succ_digit hj hd]
      rw [hlt]
      have e3 : walkBack s j - (j + 1) = 0 := by omega
      have e4 : j + 1 - (j + 1) = 0 := by omega
      rw [e3, e4]
      have e5 : (s.take (j + 1)).drop j = [s.getD j ' '] := by
        rw [take_succ_getD hj, List.drop_append_eq_append_drop]
        have hltj : (s.take j).length = j := by simp [List.length_take]; omega
        rw [List.drop_eq_nil_of_le (by omega), hltj]
        simp
      rw [e5]
      simp
    · rw [if_neg hd]
      have hd' : isAsciiDigit (s.getD j ' ') = false := by
        cases hx : isAsciiDigit (s.getD j ' ') with
        | true => exact absurd hx hd
        | false => rfl
      rw [maxDigitRunBefore_succ_nondigit hj hd']
      simp

theorem codeMajorSub_eq_amended {s : List Char} {pos : Nat} (hp : pos ≠ 0)
    (hlen : pos < s.length) : codeMajorSub s pos = amendedMajorSub s pos := by
  unfold codeMajorSub amendedMajorSub
  have hj : pos - 1 < s.length := by omega
  have key := take_drop_walkBack s (pos - 1) hj
  have hpos : pos - 1 + 1 = pos := by omega
  rw [hpos] at key
  exact key

/-- C10 (counterexample): on the input `"3 .0"` the source's `ParseGlVersion`
succeeds with major 3 and minor 0 — the backward walk stops at index 0 and
the major substring is `"3 "`, which `absl::SimpleAtoi` accepts because it
tolerates surrounding ASCII whitespace — while the claim's reading (major
parsed from the maximal run of digits immediately preceding the first dot)
fails, since the character immediately before the dot is a space, making that
run empty. -/
theorem c10_claim_counterexample :
    parseGlVersion ['3', ' ', '.', '0'] = some (3, 0) ∧
    parseGlVersionClaimed ['3', ' ', '.', '0'] = none := by decide

/-- C10 (amended): `ParseGlVersion` returns false for every string that
contains no dot or whose first dot is at index 0; otherwise it parses the
major version from the substring formed by the character immediately
preceding the first dot prefixed with the maximal run of digits before that
character, and the minor version from the characters after the first dot up
to the first space or second dot (whichever comes first, or the end of the
string if neither occurs); it returns true exactly when both substrings parse
as integers under `SimpleAtoi`. The no-dot and dot-at-index-0 failures are
part of `parseGlVersionAmended` by definition. -/
theorem c10_parseGlVersion_amended (s : List Char) :
    parseGlVersion s = parseGlVersionAmended s := by
  show parseGlVersionWith codeMajorSub s = parseGlVersionWith amendedMajorSub s
  unfold parseGlVersionWith
  cases hfind : findChar '.' s with
  | none => rfl
  | some pos =>
    show parseGlVersionCore codeMajorSub s pos =
      parseGlVersionCore amendedMajorSub s pos
    by_cases hp : pos = 0
    · unfold parseGlVersionCore
      rw [if_pos hp, if_pos hp]
    · unfold parseGlVersionCore
      rw [codeMajorSub_eq_amended hp (findChar_lt_length hfind)]

/-! ### Aggregate uniqueness (claim C7) -/

theorem glMultiSyncPointAdd_keys (t : SyncTok) : ∀ l : List SyncTok,
    (glMultiSyncPointAdd l t).map SyncTok.ctx =
      if t.ctx ∈ l.map SyncTok.ctx then l.map SyncTok.ctx
      else l.map SyncTok.ctx ++ [t.ctx] := by
  intro l
  induction l with
  | nil => simp [glMultiSyncPointAdd]
  | cons s rest ih =>
    simp only [glMultiSyncPointAdd]
    by_cases hc : s.ctx = t.ctx
    · rw [if_pos hc]
      simp [hc]
    · rw [if_neg hc]
      simp only [List.map_cons, List.mem_cons]
      by_cases hm : t.ctx ∈ rest.map SyncTok.ctx
      · rw [if_pos (Or.inr hm)]
        rw [ih, if_pos hm]
      · rw [if_neg (by push_neg; exact ⟨fun h => hc h.symm, hm⟩)]
        rw [ih, if_neg hm]
        simp

theorem glMultiSyncPointAdd_nodup {l : List SyncTok} (t : SyncTok)
    (h : (l.map SyncTok.ctx).Nodup) :
    ((glMultiSyncPointAdd l t).map SyncTok.ctx).Nodup := by
  rw [glMultiSyncPointAdd_keys]
  split
  · exact h
  · rename_i hm
    simp [List.nodup_append, h, hm]

theorem glMultiSyncPointAddAll_nodup : ∀ (ts : List SyncTok) (l : List SyncTok),
    (l.map SyncTok.ctx).Nodup →
    ((glMultiSyncPointAddAll l ts).map SyncTok.ctx).Nodup := by
  intro ts
  induction ts with
  | nil => intro l h; exact h
  | cons t rest ih =>
    intro l h
    exact ih _ (glMultiSyncPointAdd_nodup t h)

/-- C7: after any sequence of `Add` calls starting from an empty
`GlMultiSyncPoint`, the held sync points have pairwise distinct owning
contexts — `Add` replaces the existing token of the same context in place and
appends only when no held token shares the new token's context. -/
theorem c7_aggregate_unique (ts : List SyncTok) :
    ((glMultiSyncPointAddAll [] ts).map SyncTok.ctx).Nodup :=
  glMultiSyncPointAddAll_nodup ts [] (by simp)

/-! ### Sync point monotonicity (claim C6) -/

theorem applyFinishCalls_eq (count : Int) : ∀ k, applyFinishCalls count k = count + k := by
  intro k
  induction k generalizing count with
  | zero => simp [applyFinishCalls]
  | succ n ih =>
    simp only [applyFinishCalls, glFinishCalled]
    rw [ih]
    omega

/-- C6: once a sync point's `IsReady` returns true it stays true. For a
`GlFinishSyncPoint`, the context's finish count only ever increases
(`GlFinishCalled` adds one each call), so the comparison against the captured
count stays true after any number of further `GlFinishCalled` invocations.
For a `GlFenceSyncPoint`, an `IsReady` that observed the fence signaled clears
`sync_`, after which every later `IsReady` returns true regardless of the
driver; the same holds after a `Wait` that observed the fence signaled. -/
theorem c6_isReady_monotonic (captured count : Int) (k : Nat) (st : GlFenceState)
    (g g2 : Bool) :
    (glFinishSyncPointIsReady captured count = true →
      glFinishSyncPointIsReady captured (applyFinishCalls count k) = true) ∧
    ((fenceIsReady st g).1 = true →
      (fenceIsReady (fenceIsReady st g).2 g2).1 = true) ∧
    ((fenceWait st true).sync = none →
      (fenceIsReady (fenceWait st true) g2).1 = true) := by
  refine ⟨?_, ?_, ?_⟩
  · intro h
    rw [applyFinishCalls_eq]
    simp only [glFinishSyncPointIsReady, decide_eq_true_eq] at h ⊢
    omega
  · intro h
    match hs : st.sync with
    | none =>
      simp [fenceIsReady, hs]
    | some f =>
      simp only [fenceIsReady, hs] at h ⊢
      cases g with
      | true => simp [fenceIsReady]
      | false => simp at h
  · intro h
    simp [fenceIsReady, h]

/-- C6 witness at the concrete inputs `captured = 0`, `count = 1`, five
further finish calls, and a fence token observed signaled. -/
theorem c6_isReady_monotonic_witness :
    glFinishSyncPointIsReady 0 1 = true ∧
    glFinishSyncPointIsReady 0 (applyFinishCalls 1 5) = true ∧
    (fenceIsReady ⟨some 7⟩ true).1 = true ∧
    (fenceIsReady (fenceIsReady ⟨some 7⟩ true).2 false).1 = true ∧
    (fenceWait ⟨some 7⟩ true).sync = none ∧
    (fenceIsReady (fenceWait ⟨some 7⟩ true) false).1 = true := by
  have h := c6_isReady_monotonic 0 1 5 ⟨some 7⟩ true false
  exact ⟨by decide, h.1 (by decide), by decide, h.2.1 (by decide), by decide,
    h.2.2 (by decide)⟩

/-! ### FIFO job order (claim C4) -/

/-- C4: for any interleaving of `PutJob` submissions (what `Run` and
`RunWithoutWaiting` call) and worker removals via `GetJob`, the sequence of
executed jobs followed by the remaining queue equals the sequence of
submissions in order — submissions append at the back, the worker loop always
removes from the front, so side effects happen in FIFO submission order. -/
theorem c4_fifo_order (ops : List QueueOp) (q : DTQueue) :
    (applyOps q ops).executed ++ (applyOps q ops).jobs =
      (q.executed ++ q.jobs) ++ submissions ops := by
  induction ops generalizing q with
  | nil => simp [applyOps, submissions]
  | cons op rest ih =>
    cases op with
    | put j =>
      simp only [applyOps, submissions]
      rw [ih]
      simp [putJob, List.append_assoc]
    | take =>
      simp only [applyOps, submissions]
      rw [ih]
      match hq : q.jobs with
      | [] => simp [getJob, hq]
      | j :: restj => simp [getJob, hq]

/-! ### `Run` reentrancy (claim C5) and the fence constructor (claim C3) -/

theorem executesBeforeReturning_map_exec (i : Nat) :
    ∀ (pref : List GlJob) (l : List RunEv),
    executesBeforeReturning i
      ((pref.map fun g => RunEv.executed g.id) ++ RunEv.executed i :: l) = true := by
  intro pref
  induction pref with
  | nil => intro l; simp [executesBeforeReturning]
  | cons g rest ih =>
    intro l
    simp only [List.map_cons, List.cons_append, executesBeforeReturning]
    simp only [List.append_eq] at ih ⊢
    simp [ih l]

/-- C5: `DedicatedThread::Run` called from the worker thread itself executes
the job inline immediately — its trace is exactly "execute the job, return",
with nothing enqueued, the queue untouched even when other jobs are pending,
and the job's own status returned. Called from any other thread it enqueues
the job and blocks: the trace starts with the enqueue, the job executes
strictly before the call returns, and the job's own status is returned. -/
theorem c5_run_inline_semantics (pending : List GlJob) (j : GlJob) :
    dedicatedThreadRun pending j true =
      ([RunEv.executed j.id, RunEv.returned], j.result, pending) ∧
    ((dedicatedThreadRun pending j false).1.head? = some (RunEv.enqueued j.id) ∧
     executesBeforeReturning j.id (dedicatedThreadRun pending j false).1 = true ∧
     (dedicatedThreadRun pending j false).2.1 = j.result) := by
  refine ⟨rfl, rfl, ?_, rfl⟩
  simp only [dedicatedThreadRun, Bool.false_eq_true, if_false, executesBeforeReturning]
  have e : (pending ++ [j]).map (fun g => RunEv.executed g.id) ++ [RunEv.returned] =
      (pending.map fun g => RunEv.executed g.id) ++
        RunEv.executed j.id :: [RunEv.returned] := by
    simp
  rw [e, executesBeforeReturning_map_exec]

/-- C3 (counterexample): the `GlFenceSyncPoint` constructor submits its
fence-insertion job through the blocking `Run`, so on a context with a
dedicated thread and an off-thread caller the job executes strictly before
the constructor returns — the claim's "returns without blocking on the
execution of that job" fails already on an empty queue, whereas the
asynchronous submission the claim describes (`RunWithoutWaiting`, which the
destructor uses) would return first. -/
theorem c3_claim_counterexample :
    executesBeforeReturning fenceInsertJob.id
      (glFenceSyncPointConstruct [] false).1 = true ∧
    executesBeforeReturning fenceInsertJob.id
      (glFenceSyncPointConstructClaimed []).1 = false := by
  decide

/-- C3 (amended): constructing a fence-based sync point submits its
fence-insertion job to the owning context through the blocking `Run`: whether
called from the context's dedicated thread (inline) or from another thread
(enqueue and wait), the constructor does not return until the fence-insertion
job has executed. -/
theorem c3_construct_blocking (pending : List GlJob) (onThread : Bool) :
    executesBeforeReturning fenceInsertJob.id
      (glFenceSyncPointConstruct pending onThread).1 = true := by
  cases onThread with
  | true => simp [glFenceSyncPointConstruct, dedicatedThreadRun, executesBeforeReturning]
  | false =>
    simp only [glFenceSyncPointConstruct, dedicatedThreadRun, Bool.false_eq_true, if_false,
      executesBeforeReturning]
    have e : (pending ++ [fenceInsertJob]).map (fun g => RunEv.executed g.id) ++
        [RunEv.returned] =
        (pending.map fun g => RunEv.executed g.id) ++
          RunEv.executed fenceInsertJob.id :: [RunEv.returned] := by
      simp
    rw [e, executesBeforeReturning_map_exec]

/-! ### Flush coalescing (claim C2) -/

theorem enqueueWaiters_state {s : FinishCtxState} {pass : Int} (h : ¬ pass < s.count) :
    ∀ k, (enqueueWaiters s pass k).count = s.count ∧
      (enqueueWaiters s pass k).flushes = s.flushes ∧
      (enqueueWaiters s pass k).queue = s.queue ++ List.replicate k pass := by
  intro k
  induction k generalizing s with
  | zero => simp [enqueueWaiters]
  | succ n ih =>
    simp only [enqueueWaiters, waitForGlFinishEnqueue, if_neg h]
    have := ih (s := { s with target := max s.target (pass + 1),
                              queue := s.queue ++ [pass] }) h
    simp only at this
    refine ⟨this.1, this.2.1, ?_⟩
    rw [this.2.2]
    simp [List.replicate_succ]

theorem runFinishTasks_skip {s : FinishCtxState} {c : Int} (h : s.count ≠ c) :
    ∀ m, runFinishTasks s (List.replicate m c) = s := by
  intro m
  induction m with
  | zero => simp [runFinishTasks]
  | succ n ih =>
    simp only [List.replicate_succ, runFinishTasks, runFinishTask, if_neg h]
    exact ih

theorem runFinishTasks_replicate {s : FinishCtxState} {c : Int} (h : s.count = c)
    (n : Nat) :
    runFinishTasks s (List.replicate (n + 1) c) =
      { s with count := s.count + 1, flushes := s.flushes + 1 } := by
  rw [List.replicate_succ]
  simp only [runFinishTasks, runFinishTask, if_pos h]
  exact runFinishTasks_skip (by simp; omega) n

/-- C2: a `WaitForGlFinishCountPast(count)` whose context's achieved count
already exceeds `count` returns immediately without enqueueing anything or
touching the state; the enqueued `finish_task` performs a physical `glFinish`
only if the achieved count still equals the count captured for that waiter
(no effect otherwise); and any number `n + 1` of coalesced waiters with the
same target starting at achieved count `= count` cause exactly one physical
flush when the worker drains the queue. -/
theorem c2_flush_coalescing (s : FinishCtxState) (pass : Int) (n : Nat) :
    (pass < s.count → waitForGlFinishEnqueue s pass = s) ∧
    (s.count ≠ pass → runFinishTask s pass = s) ∧
    (s.count = pass → s.queue = [] →
      (drainQueue (enqueueWaiters s pass (n + 1))).flushes = s.flushes + 1 ∧
      (drainQueue (enqueueWaiters s pass (n + 1))).count = s.count + 1) := by
  refine ⟨?_, ?_, ?_⟩
  · intro h; simp [waitForGlFinishEnqueue, h]
  · intro h; simp [runFinishTask, h]
  · intro hc hq
    have hnl : ¬ pass < s.count := by omega
    obtain ⟨e1, e2, e3⟩ := enqueueWaiters_state hnl (n + 1)
    rw [hq] at e3
    simp only [List.nil_append] at e3
    unfold drainQueue
    rw [e3]
    rw [runFinishTasks_replicate (by simp [e1, hc])]
    constructor
    · simp [e2]
    · simp [e1]

/-- C2 witness: an already-passed wait at achieved count 5, a stale
`finish_task` at achieved count 5, and two coalesced waiters from achieved
count 3 causing exactly one flush. -/
theorem c2_flush_coalescing_witness :
    waitForGlFinishEnqueue ⟨5, 0, [], 0⟩ 3 = ⟨5, 0, [], 0⟩ ∧
    runFinishTask ⟨5, 0, [], 0⟩ 3 = ⟨5, 0, [], 0⟩ ∧
    (drainQueue (enqueueWaiters ⟨3, 0, [], 0⟩ 3 2)).flushes = 0 + 1 ∧
    (drainQueue (enqueueWaiters ⟨3, 0, [], 0⟩ 3 2)).count = 3 + 1 := by
  refine ⟨(c2_flush_coalescing ⟨5, 0, [], 0⟩ 3 1).1 (by norm_num),
    (c2_flush_coalescing ⟨5, 0, [], 0⟩ 3 1).2.1 (by norm_num), ?_, ?_⟩
  · exact ((c2_flush_coalescing ⟨3, 0, [], 0⟩ 3 1).2.2 (by norm_num) rfl).1
  · exact ((c2_flush_coalescing ⟨3, 0, [], 0⟩ 3 1).2.2 (by norm_num) rfl).2

/-! ### `SwitchContext` (claim C8) -/

/-- C8: when the target context differs from the thread's current context,
`SwitchContext` first clears the thread's binding and releases the old
context's use-lock (in that order: `clearBinding`, `unlockOld`,
`resetCurrent`), then acquires the target's use-lock and attempts to bind;
on bind failure it releases the newly acquired target lock and returns the
error with the thread bound to no context, never to a stale one. -/
theorem c8_switch_context (st : ThreadCtxState) (o c : Nat) (bindOk : Bool)
    (h1 : st.current = some o) (h2 : o ≠ c) :
    glSwitchContext st (some c) true bindOk =
      (bindOk,
       { current := if bindOk then some c else none,
         locked := if bindOk then st.locked.erase o ++ [c] else st.locked.erase o },
       [SwitchAct.clearBinding, SwitchAct.unlockOld o, SwitchAct.resetCurrent,
        SwitchAct.lockNew c] ++
       (if bindOk then [SwitchAct.bindNew c]
        else [SwitchAct.bindNewFailed c, SwitchAct.unlockNew c])) := by
  unfold glSwitchContext
  rw [h1]
  have hne : ¬ ((some c : Option Nat).isSome ∧ (some o : Option Nat) = some c) := by
    simp [h2]
  rw [if_neg hne]
  cases bindOk with
  | true => simp
  | false => simp

/-- C8 witness: switching from context 1 (holding locks 1 and 5) to context 2
with a failing bind leaves the thread bound to no context and holding only
lock 5. -/
theorem c8_switch_context_witness :
    glSwitchContext ⟨some 1, [1, 5]⟩ (some 2) true false =
      (false, ⟨none, [5]⟩,
       [SwitchAct.clearBinding, SwitchAct.unlockOld 1, SwitchAct.resetCurrent,
        SwitchAct.lockNew 2, SwitchAct.bindNewFailed 2, SwitchAct.unlockNew 2]) := by
  rw [c8_switch_context ⟨some 1, [1, 5]⟩ 1 2 false rfl (by decide)]
  decide

/-! ### Version fallback in `FinishInitialization` (claim C9) -/

/-- C9: when the numeric version query is unsupported and the version string
does not parse, `FinishInitialization` does not fail for that reason: the
version falls back to major 2, minor 0 (possibly overridden later by the
context-creation version) and initialization continues — with the follow-up
compatibility extension query succeeding, the whole version phase returns
`ok`. -/
theorem c9_version_fallback (qM qm : Int) (vs : List Char) (fromCreation : Int)
    (extOk : Bool) (hp : parseGlVersion vs = none) :
    glVersionAfterQueries false qM qm vs = (2, 0) ∧
    finishInitializationVersion false qM qm vs fromCreation extOk true =
      Except.ok (glVersionFinal fromCreation (2, 0)) := by
  have hbase : glVersionAfterQueries false qM qm vs = (2, 0) := by
    simp [glVersionAfterQueries, hp]
  refine ⟨hbase, ?_⟩
  unfold finishInitializationVersion
  rw [hbase]
  dsimp only
  by_cases hv : (3 : Int) ≤ (glVersionFinal fromCreation (2, 0)).1 ∧ extOk = true
  · rw [if_pos hv]
  · rw [if_neg hv, if_pos rfl]

/-- C9 witness: the dotless version string `"Open"` does not parse, and the
version phase falls back to `2.0` and completes successfully. -/
theorem c9_version_fallback_witness :
    glVersionAfterQueries false 0 0 ['O', 'p', 'e', 'n'] = (2, 0) ∧
    finishInitializationVersion false 0 0 ['O', 'p', 'e', 'n'] 0 false true =
      Except.ok (glVersionFinal 0 (2, 0)) :=
  c9_version_fallback 0 0 ['O', 'p', 'e', 'n'] 0 false (by decide)

/-! ### Mutual-wait deadlock freedom (claim C1): invariant preservation -/

theorem invSide_congr_partner {t0 c0 : Nat} {a x : CtxThread}
    (h : InvSide t0 c0 a x) {y : CtxThread}
    (hpass : y.pass = x.pass) (hcount : y.count = x.count)
    (htarget : y.target = x.target) (hqueue : y.queue = x.queue) :
    InvSide t0 c0 a y := by
  obtain ⟨a1, b1, c1, d1, e1, f1, g1, hh1, i1, j1⟩ := h
  refine ⟨a1, ?_, ?_, d1, ?_, f1, ?_, hh1, i1, j1⟩
  · intro h
    rw [hcount, hpass]
    exact b1 h
  · intro hm hle
    rw [hqueue, hpass]
    rw [hcount, hpass] at hle
    exact c1 hm hle
  · intro hm
    rw [hqueue]
    exact e1 hm
  · intro hm
    rw [hpass, htarget]
    exact g1 hm

theorem wakeIfSleeping_pass (x : CtxThread) : (wakeIfSleeping x).pass = x.pass := by
  unfold wakeIfSleeping; split_ifs <;> rfl

theorem wakeIfSleeping_count (x : CtxThread) : (wakeIfSleeping x).count = x.count := by
  unfold wakeIfSleeping; split_ifs <;> rfl

theorem wakeIfSleeping_target (x : CtxThread) : (wakeIfSleeping x).target = x.target := by
  unfold wakeIfSleeping; split_ifs <;> rfl

theorem wakeIfSleeping_queue (x : CtxThread) : (wakeIfSleeping x).queue = x.queue := by
  unfold wakeIfSleeping; split_ifs <;> rfl

theorem stepPres_fastCheck (ts0 cs0 to0 co0 : Nat) {self other : CtxThread}
    (hpc : self.pc = WaiterPc.fastCheck)
    (h1 : InvSide ts0 cs0 self other) (h2 : InvSide to0 co0 other self) :
    InvSide ts0 cs0 (threadStep self other).1 (threadStep self other).2 ∧
    InvSide to0 co0 (threadStep self other).2 (threadStep self other).1 := by
  obtain ⟨a1, b1, c1, d1, e1, f1, g1, hh1, i1, j1⟩ := h1
  simp only [threadStep, hpc]
  split_ifs with hcnt
  · exact ⟨⟨a1, fun h => by simp at h, fun h => by simp at h, d1,
       fun h => by simp at h, fun h => by simp at h,
       fun h => by simp at h, hh1, fun h => by simp at h, j1⟩,
      invSide_congr_partner h2 rfl rfl rfl rfl⟩
  · exact ⟨⟨a1, fun h => by simp at h, fun h => by simp at h, d1,
       fun _ => e1 (by rw [hpc]; decide),
       fun h => by simp at h, fun h => by simp at h, hh1,
       fun h => by simp at h, j1⟩,
      invSide_congr_partner h2 rfl rfl rfl rfl⟩

theorem stepPres_raiseTarget (ts0 cs0 to0 co0 : Nat) {self other : CtxThread}
    (hpc : self.pc = WaiterPc.raiseTarget)
    (h1 : InvSide ts0 cs0 self other) (h2 : InvSide to0 co0 other self) :
    InvSide ts0 cs0 (threadStep self other).1 (threadStep self other).2 ∧
    InvSide to0 co0 (threadStep self other).2 (threadStep self other).1 := by
  obtain ⟨a1, b1, c1, d1, e1, f1, g1, hh1, i1, j1⟩ := h1
  obtain ⟨a2, b2, c2, d2, e2, f2, g2, hh2, i2, j2⟩ := h2
  simp only [threadStep, hpc]
  have hself : ∀ y : CtxThread,
      y.pass = other.pass → y.count = other.count →
      y.target = max other.target (other.pass + 1) → y.queue = other.queue →
      InvSide ts0 cs0 { self with pc := WaiterPc.setWaiting } y := by
    intro y hp hc ht hq
    refine ⟨a1, fun h => by simp at h, fun h => by simp at h, d1,
      fun _ => by rw [hq]; exact e1 (by rw [hpc]; decide), fun h => by simp at h,
      fun _ => by rw [hp, ht]; exact le_max_right _ _, hh1,
      fun h => by simp at h, j1⟩
  split_ifs with hw
  · by_cases hs : other.pc = WaiterPc.sleepingCv
    · have hwake : wakeIfSleeping ({ other with target := max other.target (other.pass + 1) } : CtxThread) = { other with target := max other.target (other.pass + 1), pc := WaiterPc.loopCheck } := by
        unfold wakeIfSleeping
        rw [if_pos hs]
      rw [hwake]
      refine ⟨hself _ rfl rfl rfl rfl, ?_⟩
      refine ⟨a2, fun h => by simp at h, ?_, d2, fun h => by simp at h,
        fun _ => (b2 hs).2.2, fun _ => g2 (by rw [hs]; decide),
        max_le hh2 (le_max_right _ _), fun h => by simp at h, j2⟩
      intro _ hle
      exact c2 (by rw [hs]; decide) hle
    · have hwake : wakeIfSleeping ({ other with target := max other.target (other.pass + 1) } : CtxThread) = { other with target := max other.target (other.pass + 1) } := by
        unfold wakeIfSleeping
        rw [if_neg hs]
      rw [hwake]
      refine ⟨hself _ rfl rfl rfl rfl, ?_⟩
      exact ⟨a2, fun h => absurd h hs, fun hm hle => c2 hm hle, d2,
        fun hm => e2 hm, fun hm => f2 hm, fun hm => g2 hm,
        max_le hh2 (le_max_right _ _),
        fun hm => lt_of_lt_of_le (i2 hm) (le_max_left _ _), j2⟩
  · refine ⟨hself _ rfl rfl rfl rfl, ?_⟩
    refine ⟨a2, ?_, fun hm hle => c2 hm hle, d2, fun hm => e2 hm,
      fun hm => f2 hm, fun hm => g2 hm,
      max_le hh2 (le_max_right _ _),
      fun hm => lt_of_lt_of_le (i2 hm) (le_max_left _ _), j2⟩
    intro hs
    exact absurd (b2 hs).2.2 hw

theorem stepPres_setWaiting (ts0 cs0 to0 co0 : Nat) {self other : CtxThread}
    (hpc : self.pc = WaiterPc.setWaiting)
    (h1 : InvSide ts0 cs0 self other) (h2 : InvSide to0 co0 other self) :
    InvSide ts0 cs0 (threadStep self other).1 (threadStep self other).2 ∧
    InvSide to0 co0 (threadStep self other).2 (threadStep self other).1 := by
  obtain ⟨a1, b1, c1, d1, e1, f1, g1, hh1, i1, j1⟩ := h1
  simp only [threadStep, hpc]
  exact ⟨⟨a1, fun h => by simp at h, fun h => by simp at h, d1,
     fun _ => e1 (by rw [hpc]; decide), fun _ => rfl,
     fun _ => g1 (by rw [hpc]; decide), hh1,
     fun h => by simp at h, j1⟩,
    invSide_congr_partner h2 rfl rfl rfl rfl⟩

theorem stepPres_enqueueTask (ts0 cs0 to0 co0 : Nat) {self other : CtxThread}
    (hpc : self.pc = WaiterPc.enqueueTask)
    (h1 : InvSide ts0 cs0 self other) (h2 : InvSide to0 co0 other self) :
    InvSide ts0 cs0 (threadStep self other).1 (threadStep self other).2 ∧
    InvSide to0 co0 (threadStep self other).2 (threadStep self other).1 := by
  obtain ⟨a1, b1, c1, d1, e1, f1, g1, hh1, i1, j1⟩ := h1
  obtain ⟨a2, b2, c2, d2, e2, f2, g2, hh2, i2, j2⟩ := h2
  simp only [threadStep, hpc]
  have hqe : other.queue = [] := e1 (by rw [hpc]; decide)
  refine ⟨⟨a1, fun h => by simp at h, fun _ _ => by simp, d1,
      fun h => by simp at h, fun _ => f1 (by rw [hpc]; decide),
      fun _ => g1 (by rw [hpc]; decide), hh1, fun h => by simp at h, j1⟩,
    ⟨a2, b2, c2, Or.inr (by rw [hqe]; simp), e2, f2, g2, hh2, i2, j2⟩⟩

theorem stepPres_loopCheck (ts0 cs0 to0 co0 : Nat) {self other : CtxThread}
    (hpc : self.pc = WaiterPc.loopCheck)
    (h1 : InvSide ts0 cs0 self other) (h2 : InvSide to0 co0 other self) :
    InvSide ts0 cs0 (threadStep self other).1 (threadStep self other).2 ∧
    InvSide to0 co0 (threadStep self other).2 (threadStep self other).1 := by
  obtain ⟨a1, b1, c1, d1, e1, f1, g1, hh1, i1, j1⟩ := h1
  simp only [threadStep, hpc]
  split_ifs with hexit hcoop
  · exact ⟨⟨a1, fun h => by simp at h, fun h => by simp at h, d1,
       fun h => by simp at h, fun _ => f1 (by rw [hpc]; decide),
       fun _ => g1 (by rw [hpc]; decide), hh1, fun h => by simp at h, j1⟩,
      invSide_congr_partner h2 rfl rfl rfl rfl⟩
  · exact ⟨⟨a1, fun h => by simp at h,
       fun _ hle => c1 (by rw [hpc]; decide) hle, d1,
       fun h => by simp at h, fun _ => f1 (by rw [hpc]; decide),
       fun _ => g1 (by rw [hpc]; decide), hh1, fun _ => hcoop, j1⟩,
      invSide_congr_partner h2 rfl rfl rfl rfl⟩
  · exact ⟨⟨a1, fun _ => ⟨Nat.le_of_not_lt hexit, Nat.le_of_not_lt hcoop,
         f1 (by rw [hpc]; decide)⟩,
       fun _ hle => c1 (by rw [hpc]; decide) hle, d1,
       fun h => by simp at h, fun _ => f1 (by rw [hpc]; decide),
       fun _ => g1 (by rw [hpc]; decide), hh1, fun h => by simp at h, j1⟩,
      invSide_congr_partner h2 rfl rfl rfl rfl⟩

theorem stepPres_coopFlush (ts0 cs0 to0 co0 : Nat) {self other : CtxThread}
    (hpc : self.pc = WaiterPc.coopFlush)
    (h1 : InvSide ts0 cs0 self other) (h2 : InvSide to0 co0 other self) :
    InvSide ts0 cs0 (threadStep self other).1 (threadStep self other).2 ∧
    InvSide to0 co0 (threadStep self other).2 (threadStep self other).1 := by
  obtain ⟨a1, b1, c1, d1, e1, f1, g1, hh1, i1, j1⟩ := h1
  obtain ⟨a2, b2, c2, d2, e2, f2, g2, hh2, i2, j2⟩ := h2
  simp only [threadStep, hpc]
  have hcb : self.count + 1 ≤ max cs0 (max ts0 (self.pass + 1)) := by
    have h4 := i1 hpc
    have h5 : max ts0 (self.pass + 1) ≤ max cs0 (max ts0 (self.pass + 1)) :=
      le_max_right _ _
    omega
  have hself : ∀ y : CtxThread, y.pass = other.pass → y.count = other.count →
      y.target = other.target → y.queue = other.queue →
      InvSide ts0 cs0
        { self with count := self.count + 1, pc := WaiterPc.loopCheck } y := by
    intro y hp hc ht hq
    refine ⟨le_trans a1 (Nat.le_succ _), fun h => by simp at h, ?_, d1,
      fun h => by simp at h, fun _ => f1 (by rw [hpc]; decide),
      fun _ => by rw [hp, ht]; exact g1 (by rw [hpc]; decide), hh1,
      fun h => by simp at h, hcb⟩
    intro _ hle
    rw [hq, hp]
    rw [hc, hp] at hle
    exact c1 (by rw [hpc]; decide) hle
  refine ⟨hself _ (wakeIfSleeping_pass other) (wakeIfSleeping_count other)
      (wakeIfSleeping_target other) (wakeIfSleeping_queue other), ?_⟩
  by_cases hs : other.pc = WaiterPc.sleepingCv
  · have hwake : wakeIfSleeping other = { other with pc := WaiterPc.loopCheck } := by
      unfold wakeIfSleeping
      rw [if_pos hs]
    rw [hwake]
    refine ⟨a2, fun h => by simp at h, ?_, d2, fun h => by simp at h,
      fun _ => (b2 hs).2.2, fun _ => g2 (by rw [hs]; decide), hh2,
      fun h => by simp at h, j2⟩
    intro _ hle
    exact c2 (by rw [hs]; decide) (Nat.le_of_succ_le hle)
  · have hwake : wakeIfSleeping other = other := by
      unfold wakeIfSleeping
      rw [if_neg hs]
    rw [hwake]
    exact ⟨a2, fun h => absurd h hs,
      fun hm hle => c2 hm (Nat.le_of_succ_le hle), d2,
      fun hm => e2 hm, f2, g2, hh2, i2, j2⟩

theorem stepPres_sleeping (ts0 cs0 to0 co0 : Nat) {self other : CtxThread}
    (hpc : self.pc = WaiterPc.sleepingCv)
    (h1 : InvSide ts0 cs0 self other) (h2 : InvSide to0 co0 other self) :
    InvSide ts0 cs0 (threadStep self other).1 (threadStep self other).2 ∧
    InvSide to0 co0 (threadStep self other).2 (threadStep self other).1 := by
  simp only [threadStep, hpc]
  exact ⟨h1, h2⟩

theorem stepPres_clearWaiting (ts0 cs0 to0 co0 : Nat) {self other : CtxThread}
    (hpc : self.pc = WaiterPc.clearWaiting)
    (h1 : InvSide ts0 cs0 self other) (h2 : InvSide to0 co0 other self) :
    InvSide ts0 cs0 (threadStep self other).1 (threadStep self other).2 ∧
    InvSide to0 co0 (threadStep self other).2 (threadStep self other).1 := by
  obtain ⟨a1, b1, c1, d1, e1, f1, g1, hh1, i1, j1⟩ := h1
  simp only [threadStep, hpc]
  exact ⟨⟨a1, fun h => by simp at h, fun h => by simp at h, d1,
     fun h => by simp at h, fun h => by simp at h,
     fun h => by simp at h, hh1, fun h => by simp at h, j1⟩,
    invSide_congr_partner h2 rfl rfl rfl rfl⟩

theorem stepPres_jobDone (ts0 cs0 to0 co0 : Nat) {self other : CtxThread}
    (hpc : self.pc = WaiterPc.jobDone)
    (h1 : InvSide ts0 cs0 self other) (h2 : InvSide to0 co0 other self) :
    InvSide ts0 cs0 (threadStep self other).1 (threadStep self other).2 ∧
    InvSide to0 co0 (threadStep self other).2 (threadStep self other).1 := by
  cases hq : self.queue with
  | nil =>
    simp only [threadStep, hpc, hq]
    exact ⟨h1, h2⟩
  | cons c rest =>
    obtain ⟨a1, b1, c1, d1, e1, f1, g1, hh1, i1, j1⟩ := h1
    obtain ⟨a2, b2, c2, d2, e2, f2, g2, hh2, i2, j2⟩ := h2
    have hcr : c = self.pass ∧ rest = [] := by
      rcases d1 with h | h
      · rw [hq] at h; simp at h
      · rw [hq] at h; simp at h; exact h
    obtain ⟨hc1, hc2⟩ := hcr
    simp only [threadStep, hpc, hq]
    split_ifs with hcount
    · have hcb : self.count + 1 ≤ max cs0 (max ts0 (self.pass + 1)) := by
        have h5 : self.pass + 1 ≤ max ts0 (self.pass + 1) := le_max_right _ _
        have h6 : max ts0 (self.pass + 1) ≤ max cs0 (max ts0 (self.pass + 1)) :=
          le_max_right _ _
        omega
      refine ⟨⟨le_trans a1 (Nat.le_succ _), fun h => by simp [hpc] at h,
          fun h => by simp [hpc] at h, Or.inl hc2, fun h => by simp [hpc] at h,
          fun h => by simp [hpc] at h, fun h => by simp [hpc] at h, hh1,
          fun h => by simp [hpc] at h, hcb⟩, ?_⟩
      by_cases hs : other.pc = WaiterPc.sleepingCv
      · have hwake : wakeIfSleeping other = { other with pc := WaiterPc.loopCheck } := by
          unfold wakeIfSleeping
          rw [if_pos hs]
        rw [hwake]
        refine ⟨a2, fun h => by simp at h, ?_, d2, fun h => by simp at h,
          fun _ => (b2 hs).2.2, fun _ => g2 (by rw [hs]; decide), hh2,
          fun h => by simp at h, j2⟩
        intro _ hle
        exact absurd hle (by simp; omega)
      · have hwake : wakeIfSleeping other = other := by
          unfold wakeIfSleeping
          rw [if_neg hs]
        rw [hwake]
        exact ⟨a2, fun h => absurd h hs,
          fun hm hle => absurd hle (by simp; omega), d2,
          fun _ => hc2, f2, g2, hh2, i2, j2⟩
    · refine ⟨⟨a1, fun h => by simp [hpc] at h, fun h => by simp [hpc] at h,
          Or.inl hc2, fun h => by simp [hpc] at h, fun h => by simp [hpc] at h,
          fun h => by simp [hpc] at h, hh1, fun h => by simp [hpc] at h, j1⟩,
        ⟨a2, b2, fun hm hle => absurd hle (by simp; omega), d2,
          fun _ => hc2, f2, g2, hh2, i2, j2⟩⟩

theorem threadStep_preserves (ts0 cs0 to0 co0 : Nat) {self other : CtxThread}
    (h1 : InvSide ts0 cs0 self other) (h2 : InvSide to0 co0 other self) :
    InvSide ts0 cs0 (threadStep self other).1 (threadStep self other).2 ∧
    InvSide to0 co0 (threadStep self other).2 (threadStep self other).1 := by
  cases hpc : self.pc with
  | fastCheck => exact stepPres_fastCheck ts0 cs0 to0 co0 hpc h1 h2
  | raiseTarget => exact stepPres_raiseTarget ts0 cs0 to0 co0 hpc h1 h2
  | setWaiting => exact stepPres_setWaiting ts0 cs0 to0 co0 hpc h1 h2
  | enqueueTask => exact stepPres_enqueueTask ts0 cs0 to0 co0 hpc h1 h2
  | loopCheck => exact stepPres_loopCheck ts0 cs0 to0 co0 hpc h1 h2
  | coopFlush => exact stepPres_coopFlush ts0 cs0 to0 co0 hpc h1 h2
  | sleepingCv => exact stepPres_sleeping ts0 cs0 to0 co0 hpc h1 h2
  | clearWaiting => exact stepPres_clearWaiting ts0 cs0 to0 co0 hpc h1 h2
  | jobDone => exact stepPres_jobDone ts0 cs0 to0 co0 hpc h1 h2

/-! ### Mutual-wait deadlock freedom (claim C1): termination measure -/

theorem pcWeight_wake (x : CtxThread) :
    pcWeight (wakeIfSleeping x).pc ≤ pcWeight x.pc + 2 := by
  unfold wakeIfSleeping
  split_ifs with hs
  · rw [hs]
    simp [pcWeight]
  · omega

theorem ctxMeasure_wake (t0 c0 : Nat) (x : CtxThread) :
    ctxMeasure t0 c0 (wakeIfSleeping x) ≤ ctxMeasure t0 c0 x + 2 := by
  unfold ctxMeasure
  rw [wakeIfSleeping_count, wakeIfSleeping_queue, wakeIfSleeping_pass]
  have := pcWeight_wake x
  omega

theorem threadStep_decreases (ts0 cs0 to0 co0 : Nat) {self other : CtxThread}
    (h1 : InvSide ts0 cs0 self other) (hen : threadEnabled self = true) :
    ctxMeasure ts0 cs0 (threadStep self other).1 +
      ctxMeasure to0 co0 (threadStep self other).2 <
    ctxMeasure ts0 cs0 self + ctxMeasure to0 co0 other := by
  obtain ⟨a1, b1, c1, d1, e1, f1, g1, hh1, i1, j1⟩ := h1
  cases hpc : self.pc with
  | fastCheck =>
    simp only [threadStep, hpc]
    split_ifs with hcnt <;> (simp [ctxMeasure, pcWeight, hpc]; try omega)
  | raiseTarget =>
    simp only [threadStep, hpc]
    split_ifs with hw
    · have hw1 := ctxMeasure_wake to0 co0
        ({ other with target := max other.target (other.pass + 1) } : CtxThread)
      have hw2 : ctxMeasure to0 co0
          ({ other with target := max other.target (other.pass + 1) } : CtxThread) =
          ctxMeasure to0 co0 other := by
        unfold ctxMeasure
        rfl
      rw [hw2] at hw1
      simp only [ctxMeasure, pcWeight, hpc] at hw1 ⊢
      omega
    · simp only [ctxMeasure, pcWeight, hpc]
      omega
  | setWaiting =>
    simp only [threadStep, hpc]
    simp [ctxMeasure, pcWeight, hpc]
    try omega
  | enqueueTask =>
    simp only [threadStep, hpc]
    simp [ctxMeasure, pcWeight, hpc]
    try omega
  | loopCheck =>
    simp only [threadStep, hpc]
    split_ifs with hexit hcoop <;> (simp [ctxMeasure, pcWeight, hpc]; try omega)
  | coopFlush =>
    simp only [threadStep, hpc]
    have hw1 := ctxMeasure_wake to0 co0 other
    have hlt : self.count < max cs0 (max ts0 (self.pass + 1)) := by
      have h4 := i1 hpc
      have h5 : max ts0 (self.pass + 1) ≤ max cs0 (max ts0 (self.pass + 1)) :=
        le_max_right _ _
      omega
    simp only [ctxMeasure, pcWeight, hpc] at hw1 ⊢
    omega
  | sleepingCv =>
    rw [threadEnabled, hpc] at hen
    simp at hen
  | clearWaiting =>
    simp only [threadStep, hpc]
    simp [ctxMeasure, pcWeight, hpc]
    try omega
  | jobDone =>
    cases hq : self.queue with
    | nil =>
      rw [threadEnabled, hpc] at hen
      rw [hq] at hen
      simp at hen
    | cons c rest =>
      have hc1 : c = self.pass := by
        rcases d1 with h | h
        · rw [hq] at h; simp at h
        · rw [hq] at h; simp at h; exact h.1
      simp only [threadStep, hpc, hq]
      split_ifs with hcount
      · have hw1 := ctxMeasure_wake to0 co0 other
        have hlt : self.count < max cs0 (max ts0 (self.pass + 1)) := by
          have h5 : self.pass + 1 ≤ max ts0 (self.pass + 1) := le_max_right _ _
          have h6 : max ts0 (self.pass + 1) ≤ max cs0 (max ts0 (self.pass + 1)) :=
            le_max_right _ _
          omega
        simp only [ctxMeasure, pcWeight, hpc, hq] at hw1 ⊢
        simp only [List.length_cons]
        omega
      · simp only [ctxMeasure, pcWeight, hpc, hq]
        simp only [List.length_cons]
        omega

/-! ### Mutual-wait deadlock freedom (claim C1): system level -/

theorem coordStep_preserves (ta ca tb cb : Nat) {s s' : CoordSys}
    (hInv : sysInv ta ca tb cb s) (hstep : CoordStep s s') :
    sysInv ta ca tb cb s' := by
  obtain ⟨hA, hB⟩ := hInv
  rcases hstep with ⟨hen, rfl⟩ | ⟨hen, rfl⟩
  · exact threadStep_preserves ta ca tb cb hA hB
  · have h := threadStep_preserves tb cb ta ca hB hA
    exact ⟨h.2, h.1⟩

theorem coordStep_decreases (ta ca tb cb : Nat) {s s' : CoordSys}
    (hInv : sysInv ta ca tb cb s) (hstep : CoordStep s s') :
    sysMeasure ta ca tb cb s' < sysMeasure ta ca tb cb s := by
  obtain ⟨hA, hB⟩ := hInv
  rcases hstep with ⟨hen, rfl⟩ | ⟨hen, rfl⟩
  · exact threadStep_decreases ta ca tb cb hA hen
  · have h := threadStep_decreases tb cb ta ca hB hen
    simp only [sysMeasure, stepBFn] at h ⊢
    omega

theorem threadDisabled_cases (x : CtxThread) (hx : threadEnabled x = false) :
    x.pc = WaiterPc.sleepingCv ∨ (x.pc = WaiterPc.jobDone ∧ x.queue = []) := by
  unfold threadEnabled at hx
  cases hp : x.pc <;> rw [hp] at hx <;> simp at hx
  · exact Or.inl rfl
  · exact Or.inr ⟨rfl, hx⟩

theorem noStep_bothReturned (ta ca tb cb : Nat) {s : CoordSys}
    (hInv : sysInv ta ca tb cb s) (hns : noStepEnabled s = true) :
    bothReturned s = true := by
  obtain ⟨h1, h2⟩ := hInv
  obtain ⟨a1, b1, c1, d1, e1, f1, g1, hh1, i1, j1⟩ := h1
  obtain ⟨a2, b2, c2, d2, e2, f2, g2, hh2, i2, j2⟩ := h2
  have hns2 : threadEnabled s.a = false ∧ threadEnabled s.b = false := by
    simpa [noStepEnabled] using hns
  rcases threadDisabled_cases s.a hns2.1 with hsa | ⟨hda, hqa⟩
  · have hfacts := b1 hsa
    have htask := c1 (Or.inr (Or.inr hsa)) hfacts.1
    rcases threadDisabled_cases s.b hns2.2 with hsb | ⟨hdb, hqb⟩
    · have hfb := b2 hsb
      have hg := g2 (by rw [hsb]; decide)
      have e3 := hfacts.2.1
      have e4 := hfb.1
      omega
    · rw [hqb] at htask
      simp at htask
  · rcases threadDisabled_cases s.b hns2.2 with hsb | ⟨hdb, hqb⟩
    · have hfb := b2 hsb
      have htask := c2 (Or.inr (Or.inr hsb)) hfb.1
      rw [hqa] at htask
      simp at htask
    · simp [bothReturned, hda, hdb]

theorem schedStep_sound (s : CoordSys) :
    CoordStep s (schedStep s) ∨ (noStepEnabled s = true ∧ schedStep s = s) := by
  unfold schedStep
  by_cases h1 : threadEnabled s.a = true
  · rw [if_pos h1]
    exact Or.inl (Or.inl ⟨h1, rfl⟩)
  · rw [if_neg h1]
    by_cases hb : threadEnabled s.b = true
    · rw [if_pos hb]
      exact Or.inl (Or.inr ⟨hb, rfl⟩)
    · rw [if_neg hb]
      refine Or.inr ⟨?_, rfl⟩
      simp only [Bool.not_eq_true] at h1 hb
      simp [noStepEnabled, h1, hb]

/-- C1: in the two-context mutual-wait scenario — contexts A and B, each with
a dedicated thread, A's thread blocked in `Wait` on a finish-based sync point
of B while B's thread is simultaneously blocked in `Wait` on a finish-based
sync point of A — both `Wait` calls return, under any interleaving of the two
threads (a run may stutter only when no thread has an enabled action). The
hypotheses `pa ≤ ca` and `pb ≤ cb` state that each token's captured count is
at most the achieved count at `Wait` time, which holds because the counts are
monotonic and the token captured an earlier value of the same counter. The
proof is the cooperative-flush argument of the source: a waiter whose own
context is behind its own requested flush target performs that flush itself
instead of sleeping, which breaks the cycle; formally, every enabled action
strictly decreases `sysMeasure`, and in any reachable state satisfying the
inductive invariant where neither thread can act, both threads have
returned. -/
theorem c1_mutual_wait_both_return (pa ca ta pb cb tb : Nat)
    (ha : pa ≤ ca) (hb : pb ≤ cb) (run : Nat → CoordSys)
    (h0 : run 0 = initSys pa ca ta pb cb tb)
    (hstep : ∀ n, CoordStep (run n) (run (n + 1)) ∨
      (noStepEnabled (run n) = true ∧ run (n + 1) = run n)) :
    ∃ n, bothReturned (run n) = true := by
  have hInv0 : sysInv ta ca tb cb (initSys pa ca ta pb cb tb) := by
    refine ⟨⟨ha, fun h => by simp [initSys] at h, fun h => by simp [initSys] at h,
        Or.inl rfl, fun _ => rfl, fun h => by simp [initSys] at h,
        fun h => by simp [initSys] at h, le_max_left _ _,
        fun h => by simp [initSys] at h, le_max_left _ _⟩,
      ⟨hb, fun h => by simp [initSys] at h, fun h => by simp [initSys] at h,
        Or.inl rfl, fun _ => rfl, fun h => by simp [initSys] at h,
        fun h => by simp [initSys] at h, le_max_left _ _,
        fun h => by simp [initSys] at h, le_max_left _ _⟩⟩
  have hInv : ∀ n, sysInv ta ca tb cb (run n) := by
    intro n
    induction n with
    | zero => rw [h0]; exact hInv0
    | succ k ih =>
      rcases hstep k with hs | ⟨_, heq⟩
      · exact coordStep_preserves ta ca tb cb ih hs
      · rw [heq]; exact ih
  by_contra hno
  push_neg at hno
  have hreal : ∀ n, CoordStep (run n) (run (n + 1)) := by
    intro n
    rcases hstep n with hs | ⟨hns, _⟩
    · exact hs
    · exact absurd (noStep_bothReturned ta ca tb cb (hInv n) hns) (hno n)
  have hdec : ∀ n, sysMeasure ta ca tb cb (run (n + 1)) <
      sysMeasure ta ca tb cb (run n) :=
    fun n => coordStep_decreases ta ca tb cb (hInv n) (hreal n)
  have hbound : ∀ n, sysMeasure ta ca tb cb (run n) + n ≤
      sysMeasure ta ca tb cb (run 0) := by
    intro n
    induction n with
    | zero => omega
    | succ k ih =>
      have := hdec k
      omega
  have := hbound (sysMeasure ta ca tb cb (run 0) + 1)
  omega

/-- C1 witness: a concrete run of the deterministic scheduler from the
initial state with passes 1 and 2, counts 1 and 2, reaches a state where both
`Wait` calls have returned. -/
theorem c1_mutual_wait_both_return_witness :
    ∃ n, bothReturned (schedRun (initSys 1 1 0 2 2 0) n) = true :=
  c1_mutual_wait_both_return 1 1 0 2 2 0 (le_refl 1) (le_refl 2)
    (schedRun (initSys 1 1 0 2 2 0)) rfl
    (fun n => schedStep_sound (schedRun (initSys 1 1 0 2 2 0) n))

end GlContextSpec
